import Mathlib

/-!
# Verification of the tzxit block/track decoders

A shallow embedding of the TZX tape-block decoders and the DSK track decoder
of the `mrcook/tzxit` repository, together with proofs about them.

Byte streams are modelled as `List Nat` (each element is one byte of the
input, most theorems do not need the `< 256` bound and state it only where
it matters).  The sequential byte reader used by the decoders is an external
collaborator of the repository (package `storage` / `tape`), so its
primitives are modelled from the specification: a read of `n` bytes consumes
exactly `n` bytes and reports an error when fewer bytes remain than
requested.  Reader errors are modelled with `Option` / explicit error
values, mirroring how a failed primitive read surfaces to the caller.
-/

namespace Tzxit

set_option maxRecDepth 100000

/-- Modelled from the spec: the byte reader's fixed-size read (`ReadBytes` /
`ReadNextBytes`).  Consumes exactly `n` bytes; reports an error (`none`)
when fewer bytes remain than requested. -/
def readBytes (n : Nat) (s : List Nat) : Option (List Nat × List Nat) :=
  if n ≤ s.length then some (s.take n, s.drop n) else none

/-- A little-endian 16-bit word assembled from two bytes. -/
def word16 (lo hi : Nat) : Nat := lo + 256 * hi

/-- Modelled from the spec: the byte reader's little-endian 16-bit read
(`ReadShort`).  Consumes two bytes; errors when fewer remain. -/
def readShort (s : List Nat) : Option (Nat × List Nat) :=
  match s with
  | lo :: hi :: rest => some (word16 lo hi, rest)
  | _ => none

/-- Modelled from the spec: the byte reader's little-endian 32-bit read
(`ReadLong`).  Consumes four bytes; errors when fewer remain. -/
def readLong (s : List Nat) : Option (Nat × List Nat) :=
  match s with
  | b0 :: b1 :: b2 :: b3 :: rest =>
      some (b0 + 256 * b1 + 65536 * b2 + 16777216 * b3, rest)
  | _ => none

/-- Modelled from the spec: the byte reader's single-byte read (`ReadByte`). -/
def readByte (s : List Nat) : Option (Nat × List Nat) :=
  match s with
  | b :: rest => some (b, rest)
  | _ => none

/-! ## CallSequence (block ID 0x26, `blocks` package)

```go
type CallSequence struct {
    Count  uint16   // N WORD  Number of calls to be made
    Blocks []uint16 // WORD[N] Array of call block numbers (relative-signed offsets)
}

func (c *CallSequence) Read(reader *storage.Reader) {
    c.Count = reader.ReadShort()
    for i := 0; i < int(c.Count); i++ {
        c.Blocks = append(c.Blocks, reader.ReadShort())
    }
}
```
The `uint16` fields are embedded as `Nat` (values `< 2^16` whenever the
input bytes are bytes). -/

structure CallSequence where
  Count : Nat
  Blocks : List Nat
  deriving Repr, DecidableEq

/-- The `for i := 0; i < n; i++ { c.Blocks = append(c.Blocks, reader.ReadShort()) }`
loop of `CallSequence.Read`: `n` successive 16-bit reads appended to `acc`. -/
def readShortsLoop : Nat → List Nat → List Nat → Option (List Nat × List Nat)
  | 0, acc, s => some (acc, s)
  | n + 1, acc, s =>
    match readShort s with
    | some (w, s') => readShortsLoop n (acc ++ [w]) s'
    | none => none

/-- `CallSequence.Read`: read the 16-bit count, then that many 16-bit words,
appending each to the receiver's `Blocks`. -/
def CallSequence.Read (c : CallSequence) (s : List Nat) :
    Option (CallSequence × List Nat) :=
  match readShort s with
  | none => none
  | some (n, s1) =>
    match readShortsLoop n c.Blocks s1 with
    | none => none
    | some (blocks, s2) => some ({ Count := n, Blocks := blocks }, s2)

/-- The list of `n` little-endian 16-bit words sitting at the front of a byte
stream, in stream order. -/
def leWords : Nat → List Nat → List Nat
  | 0, _ => []
  | n + 1, lo :: hi :: rest => word16 lo hi :: leWords n rest
  | _ + 1, _ => []

theorem leWords_length (n : Nat) (s : List Nat) (h : 2 * n ≤ s.length) :
    (leWords n s).length = n := by
  induction n generalizing s with
  | zero => simp [leWords]
  | succ k ih =>
    match s with
    | [] => simp at h
    | [_] => simp at h; omega
    | lo :: hi :: rest =>
      simp only [leWords, List.length_cons]
      rw [ih]
      simp only [List.length_cons] at h
      omega

theorem leWords_getElem (n : Nat) (s : List Nat) (i : Nat)
    (h : 2 * n ≤ s.length) (hi : i < n) :
    (leWords n s)[i]! = word16 (s[2 * i]!) (s[2 * i + 1]!) := by
  induction n generalizing s i with
  | zero => omega
  | succ k ih =>
    match s with
    | [] => simp at h
    | [_] => simp at h; omega
    | lo :: hi :: rest =>
      match i with
      | 0 => simp [leWords, leWords_length]
      | j + 1 =>
        have hlen : 2 * k ≤ rest.length := by
          simp only [List.length_cons] at h; omega
        have hjk : j < k := by omega
        simp only [leWords]
        have hl : (leWords k rest).length = k := leWords_length k rest hlen
        rw [List.getElem!_cons_succ]
        rw [ih rest j hlen hjk]
        congr 1
        · have : 2 * (j + 1) = (2 * j + 1) + 1 := by ring
          rw [this, List.getElem!_cons_succ, List.getElem!_cons_succ]
        · have : 2 * (j + 1) + 1 = (2 * j + 1 + 1) + 1 := by ring
          rw [this, List.getElem!_cons_succ, List.getElem!_cons_succ]

theorem readShortsLoop_ok (n : Nat) (acc s : List Nat) (h : 2 * n ≤ s.length) :
    readShortsLoop n acc s = some (acc ++ leWords n s, s.drop (2 * n)) := by
  induction n generalizing acc s with
  | zero => simp [readShortsLoop, leWords]
  | succ k ih =>
    match s with
    | [] => simp at h
    | [_] => simp at h; omega
    | lo :: hi :: rest =>
      have hlen : 2 * k ≤ rest.length := by
        simp only [List.length_cons] at h; omega
      simp only [readShortsLoop, readShort, leWords]
      rw [ih (acc ++ [word16 lo hi]) rest hlen]
      have h2 : 2 * (k + 1) = 2 * k + 1 + 1 := by ring
      simp [h2, List.append_assoc]

/-- Modelled from the spec: the i16 (signed 16-bit, two's-complement) reading
of a 16-bit word, as the spec's block-layout table (`N × offset:i16`)
prescribes for CallSequence offsets.  Used only for comparison against what
the code actually stores. -/
def int16OfWord (w : Nat) : Int :=
  if w % 65536 < 32768 then ((w % 65536 : Nat) : Int)
  else ((w % 65536 : Nat) : Int) - 65536

/-- C1: decoding a CallSequence whose leading 16-bit count is `N` from a
sufficiently long input consumes exactly `2 + 2N` bytes and yields exactly
the `N` little-endian words of the input, in input order. -/
theorem callSequence_read_consumes (b0 b1 : Nat) (rest : List Nat)
    (h : 2 * word16 b0 b1 ≤ rest.length) :
    CallSequence.Read ⟨0, []⟩ (b0 :: b1 :: rest) =
      some (⟨word16 b0 b1, leWords (word16 b0 b1) rest⟩,
            rest.drop (2 * word16 b0 b1)) ∧
    (leWords (word16 b0 b1) rest).length = word16 b0 b1 ∧
    (2 + 2 * word16 b0 b1) + (rest.drop (2 * word16 b0 b1)).length =
      (b0 :: b1 :: rest).length ∧
    (∀ i, i < word16 b0 b1 →
      (leWords (word16 b0 b1) rest)[i]! = word16 (rest[2 * i]!) (rest[2 * i + 1]!)) := by
  refine ⟨?_, leWords_length _ _ h, ?_, fun i hi => leWords_getElem _ _ _ h hi⟩
  · simp only [CallSequence.Read, readShort]
    rw [readShortsLoop_ok _ _ _ h]
    simp
  · simp only [List.length_drop, List.length_cons]
    omega

/-- Witness for C1 at the concrete input `[2, 0, 5, 0, 255, 255]`
(count 2, words 5 and 65535). -/
theorem callSequence_read_consumes_witness :
    CallSequence.Read ⟨0, []⟩ (2 :: 0 :: [5, 0, 255, 255]) =
      some (⟨word16 2 0, leWords (word16 2 0) [5, 0, 255, 255]⟩,
            [5, 0, 255, 255].drop (2 * word16 2 0)) ∧
    (leWords (word16 2 0) [5, 0, 255, 255]).length = word16 2 0 ∧
    (2 + 2 * word16 2 0) + ([5, 0, 255, 255].drop (2 * word16 2 0)).length =
      (2 :: 0 :: [5, 0, 255, 255]).length ∧
    (∀ i, i < word16 2 0 →
      (leWords (word16 2 0) [5, 0, 255, 255])[i]! =
        word16 ([5, 0, 255, 255][2 * i]!) ([5, 0, 255, 255][2 * i + 1]!)) :=
  callSequence_read_consumes 2 0 [5, 0, 255, 255] (by decide)

/-- Counterexample to C2: decoding the input `[1, 0, 255, 255]` (count 1,
word 0xFFFF) stores the offset `65535`, which is not negative as an integer;
the spec's i16 reading of that word would be `-1`, which is not what is
stored. -/
theorem callSequence_offset_unsigned_cex :
    CallSequence.Read ⟨0, []⟩ [1, 0, 255, 255] = some (⟨1, [65535]⟩, []) ∧
    ¬ ((65535 : Int) < 0) ∧
    int16OfWord 65535 = -1 ∧
    ((65535 : Nat) : Int) ≠ int16OfWord 65535 := by
  refine ⟨by decide, by decide, by decide, by decide⟩

/-- C2 amended: offsets decoded by `CallSequence.Read` are stored as raw
unsigned 16-bit words.  For byte-valued input each stored offset is `< 65536`
and nonnegative; an input word with the high bit set is stored as the value
`≥ 0x8000` itself (the two's-complement image of the negative offset), not as
a negative number. -/
theorem callSequence_offset_unsigned (b0 b1 : Nat) (rest : List Nat)
    (hbytes : ∀ b ∈ rest, b < 256)
    (h : 2 * word16 b0 b1 ≤ rest.length) :
    ∃ c s', CallSequence.Read ⟨0, []⟩ (b0 :: b1 :: rest) = some (c, s') ∧
      c.Count = word16 b0 b1 ∧
      c.Blocks.length = c.Count ∧
      ∀ i, i < c.Count →
        c.Blocks[i]! < 65536 ∧
        0 ≤ ((c.Blocks[i]! : Nat) : Int) ∧
        (128 ≤ rest[2 * i + 1]! → 32768 ≤ c.Blocks[i]!) := by
  obtain ⟨hread, hlen, _, hget⟩ := callSequence_read_consumes b0 b1 rest h
  refine ⟨_, _, hread, rfl, hlen, ?_⟩
  intro i hi
  have hi' : i < word16 b0 b1 := hi
  have h2i : 2 * i < rest.length := by omega
  have h2i1 : 2 * i + 1 < rest.length := by omega
  have hlo : rest[2 * i]! < 256 := by
    rw [getElem!_pos rest (2 * i) h2i]
    exact hbytes _ (rest.getElem_mem h2i)
  have hhi : rest[2 * i + 1]! < 256 := by
    rw [getElem!_pos rest (2 * i + 1) h2i1]
    exact hbytes _ (rest.getElem_mem h2i1)
  rw [hget i hi']
  refine ⟨?_, by positivity, ?_⟩
  · simp only [word16]; omega
  · intro hbit; simp only [word16]; omega

/-- Witness for the amended C2 at the concrete input `[1, 0, 255, 255]`. -/
theorem callSequence_offset_unsigned_witness :
    ∃ c s', CallSequence.Read ⟨0, []⟩ (1 :: 0 :: [255, 255]) = some (c, s') ∧
      c.Count = word16 1 0 ∧
      c.Blocks.length = c.Count ∧
      ∀ i, i < c.Count →
        c.Blocks[i]! < 65536 ∧
        0 ≤ ((c.Blocks[i]! : Nat) : Int) ∧
        (128 ≤ [255, 255][2 * i + 1]! → 32768 ≤ c.Blocks[i]!) :=
  callSequence_offset_unsigned 1 0 [255, 255] (by decide) (by decide)

/-! ## CustomInfo (block ID 0x35, `tzx` package)

```go
type CustomInfo struct {
    Identification [10]byte // CHAR[10]  Identification string (in ASCII)
    Length         uint32   // L DWORD   Length of the custom info
    Info           []uint8  // BYTE[L]   Custom info
}

func (c *CustomInfo) Read(file *tape.File) {
    for i, b := range file.ReadBytes(10) {
        c.Identification[i] = b
    }
    c.Length = file.ReadLong()
    for _, b := range file.ReadBytes(int(c.Length)) {
        c.Info = append(c.Info, b)
    }
}
```
-/

structure CustomInfo where
  Identification : List Nat
  Length : Nat
  Info : List Nat
  deriving Repr, DecidableEq

/-- `CustomInfo.Read`: 10 identification bytes (written into the fixed-size
array), a 32-bit little-endian length `L`, then `L` info bytes appended to
the receiver's `Info` slice. -/
def CustomInfo.Read (c : CustomInfo) (s : List Nat) :
    Option (CustomInfo × List Nat) :=
  match readBytes 10 s with
  | none => none
  | some (ident, s1) =>
    match readLong s1 with
    | none => none
    | some (len, s2) =>
      match readBytes len s2 with
      | none => none
      | some (info, s3) =>
        some ({ Identification := ident, Length := len,
                Info := c.Info ++ info }, s3)

/-- The Go zero value of `CustomInfo`. -/
def CustomInfo.zero : CustomInfo :=
  { Identification := List.replicate 10 0, Length := 0, Info := [] }

/-- The 32-bit little-endian word at bytes 10..13 of a stream, as
`CustomInfo.Read` decodes the declared length. -/
def customInfoLength (s : List Nat) : Nat :=
  s[10]! + 256 * s[11]! + 65536 * s[12]! + 16777216 * s[13]!

theorem readLong_eq (s : List Nat) (h : 4 ≤ s.length) :
    readLong s = some (s[0]! + 256 * s[1]! + 65536 * s[2]! + 16777216 * s[3]!,
                       s.drop 4) := by
  match s with
  | b0 :: b1 :: b2 :: b3 :: rest => simp [readLong]
  | [] | [_] | [_, _] | [_, _, _] => simp at h

theorem customInfo_read_eq (c : CustomInfo) (s : List Nat)
    (h14 : 14 ≤ s.length) (hL : customInfoLength s ≤ s.length - 14) :
    CustomInfo.Read c s =
      some ({ Identification := s.take 10, Length := customInfoLength s,
              Info := c.Info ++ (s.drop 14).take (customInfoLength s) },
            (s.drop 14).drop (customInfoLength s)) := by
  have h10 : 10 ≤ s.length := by omega
  have h4 : 4 ≤ (s.drop 10).length := by
    simp only [List.length_drop]; omega
  simp only [CustomInfo.Read, readBytes, if_pos h10]
  rw [readLong_eq (s.drop 10) h4]
  have hidx : ∀ j : Nat, (s.drop 10)[j]! = s[10 + j]! := by
    intro j
    by_cases hj : 10 + j < s.length
    · rw [getElem!_pos (s.drop 10) j (by simp only [List.length_drop]; omega),
          getElem!_pos s (10 + j) hj, List.getElem_drop]
    · rw [getElem!_neg (s.drop 10) j (by simp only [List.length_drop]; omega),
          getElem!_neg s (10 + j) hj]
  have hlen : customInfoLength s =
      (s.drop 10)[0]! + 256 * (s.drop 10)[1]! + 65536 * (s.drop 10)[2]! +
        16777216 * (s.drop 10)[3]! := by
    simp only [customInfoLength, hidx]
  have hdd : (s.drop 10).drop 4 = s.drop 14 := by
    rw [List.drop_drop]
  have havail : customInfoLength s ≤ (s.drop 14).length := by
    simp only [List.length_drop]; omega
  rw [← hlen, hdd]
  simp only [readBytes, if_pos havail]

/-- C7: decoding a CustomInfo block with declared length `L` from a zero
receiver reads a 10-byte identification field, a 32-bit little-endian length
`L`, then exactly `L` info bytes; it consumes `14 + L` bytes in total and
leaves `Info` of length `L`. -/
theorem customInfo_read_consumes (s : List Nat)
    (h14 : 14 ≤ s.length) (hL : customInfoLength s ≤ s.length - 14) :
    CustomInfo.Read CustomInfo.zero s =
      some ({ Identification := s.take 10, Length := customInfoLength s,
              Info := (s.drop 14).take (customInfoLength s) },
            s.drop (14 + customInfoLength s)) ∧
    ((s.drop 14).take (customInfoLength s)).length = customInfoLength s ∧
    (14 + customInfoLength s) + (s.drop (14 + customInfoLength s)).length =
      s.length := by
  have h := customInfo_read_eq CustomInfo.zero s h14 hL
  have hdd : (s.drop 14).drop (customInfoLength s) =
      s.drop (14 + customInfoLength s) := by
    rw [List.drop_drop]
  constructor
  · rw [h, hdd]; simp [CustomInfo.zero]
  constructor
  · rw [List.length_take]
    simp only [List.length_drop]
    omega
  · simp only [List.length_drop]; omega

/-- Witness for C7: the 16-byte input with identification `0..9`, declared
length 2 and info bytes `[7, 8]`. -/
theorem customInfo_read_consumes_witness :
    CustomInfo.Read CustomInfo.zero
        [0, 1, 2, 3, 4, 5, 6, 7, 8, 9, 2, 0, 0, 0, 7, 8] =
      some ({ Identification := [0, 1, 2, 3, 4, 5, 6, 7, 8, 9, 2, 0, 0, 0, 7, 8].take 10,
              Length := customInfoLength [0, 1, 2, 3, 4, 5, 6, 7, 8, 9, 2, 0, 0, 0, 7, 8],
              Info := ([0, 1, 2, 3, 4, 5, 6, 7, 8, 9, 2, 0, 0, 0, 7, 8].drop 14).take
                (customInfoLength [0, 1, 2, 3, 4, 5, 6, 7, 8, 9, 2, 0, 0, 0, 7, 8]) },
            [0, 1, 2, 3, 4, 5, 6, 7, 8, 9, 2, 0, 0, 0, 7, 8].drop
              (14 + customInfoLength [0, 1, 2, 3, 4, 5, 6, 7, 8, 9, 2, 0, 0, 0, 7, 8])) ∧
    (([0, 1, 2, 3, 4, 5, 6, 7, 8, 9, 2, 0, 0, 0, 7, 8].drop 14).take
        (customInfoLength [0, 1, 2, 3, 4, 5, 6, 7, 8, 9, 2, 0, 0, 0, 7, 8])).length =
      customInfoLength [0, 1, 2, 3, 4, 5, 6, 7, 8, 9, 2, 0, 0, 0, 7, 8] ∧
    (14 + customInfoLength [0, 1, 2, 3, 4, 5, 6, 7, 8, 9, 2, 0, 0, 0, 7, 8]) +
        ([0, 1, 2, 3, 4, 5, 6, 7, 8, 9, 2, 0, 0, 0, 7, 8].drop
          (14 + customInfoLength [0, 1, 2, 3, 4, 5, 6, 7, 8, 9, 2, 0, 0, 0, 7, 8])).length =
      [0, 1, 2, 3, 4, 5, 6, 7, 8, 9, 2, 0, 0, 0, 7, 8].length :=
  customInfo_read_consumes [0, 1, 2, 3, 4, 5, 6, 7, 8, 9, 2, 0, 0, 0, 7, 8]
    (by decide) (by decide)

/-- C10: `CustomInfo.Read` appends the newly read info bytes to whatever the
receiver's `Info` already contains: if `Info` held `p` bytes before the call
and the declared length is `L`, afterwards it holds `p + L` bytes with the
original `p` bytes unchanged as a prefix. -/
theorem customInfo_read_appends (c : CustomInfo) (s : List Nat)
    (h14 : 14 ≤ s.length) (hL : customInfoLength s ≤ s.length - 14) :
    ∃ c' s', CustomInfo.Read c s = some (c', s') ∧
      c'.Info = c.Info ++ (s.drop 14).take (customInfoLength s) ∧
      c'.Info.length = c.Info.length + customInfoLength s ∧
      c'.Info.take c.Info.length = c.Info := by
  refine ⟨_, _, customInfo_read_eq c s h14 hL, rfl, ?_, ?_⟩
  · simp only [List.length_append, List.length_take, List.length_drop]
    omega
  · rw [List.take_append_of_le_length (le_refl _), List.take_length]

/-- Witness for C10: a receiver whose `Info` already holds `[9, 9]`, on the
same 16-byte input as the C7 witness. -/
theorem customInfo_read_appends_witness :
    ∃ c' s', CustomInfo.Read
        { Identification := List.replicate 10 0, Length := 0, Info := [9, 9] }
        [0, 1, 2, 3, 4, 5, 6, 7, 8, 9, 2, 0, 0, 0, 7, 8] = some (c', s') ∧
      c'.Info = [9, 9] ++
        ([0, 1, 2, 3, 4, 5, 6, 7, 8, 9, 2, 0, 0, 0, 7, 8].drop 14).take
          (customInfoLength [0, 1, 2, 3, 4, 5, 6, 7, 8, 9, 2, 0, 0, 0, 7, 8]) ∧
      c'.Info.length = [9, 9].length +
        customInfoLength [0, 1, 2, 3, 4, 5, 6, 7, 8, 9, 2, 0, 0, 0, 7, 8] ∧
      c'.Info.take [9, 9].length = [9, 9] :=
  customInfo_read_appends
    { Identification := List.replicate 10 0, Length := 0, Info := [9, 9] }
    [0, 1, 2, 3, 4, 5, 6, 7, 8, 9, 2, 0, 0, 0, 7, 8] (by decide) (by decide)

/-! ## DSK Track Information (package `dsk`)

The track decoder reads a 24-byte header, `SectorsCount` sector descriptors,
discards up to the fixed data-start offset `0x100`, then reads one payload
per descriptor.  Go methods with pointer receivers mutate the receiver even
when they then return an error, so each phase is embedded as a function
returning the updated receiver, the remaining stream, and an optional error
(`none` = success).

`SectorInformation` (its `Read`, `DataRead` and the 8-byte descriptor size)
lives outside the provided sources and is modelled from the spec: a
fixed-size (8-byte) descriptor carrying the sector's identity fields and a
sector-size code, with the payload byte length derived from that code
(`0x80 << code`, the standard DSK derivation). -/

/-- Errors produced by the track decoder.  `wrap` mirrors `errors.Wrap` /
`errors.Wrapf` context messages. -/
inductive DskError where
  | truncated : DskError
  | negativeCount : DskError
  | wrap : String → DskError → DskError
  deriving Repr, DecidableEq

/-- Modelled from the spec: the reader's `Discard` of `n` bytes.  Discarding
a negative number of bytes is not a valid byte count and errors; otherwise
it errors exactly when fewer bytes remain than requested. -/
def discard (n : Int) (s : List Nat) : Except DskError (List Nat) :=
  if n < 0 then Except.error DskError.negativeCount
  else if n.toNat ≤ s.length then Except.ok (s.drop n.toNat)
  else Except.error DskError.truncated

def trackInformationBlockSize : Nat := 24

def sectorDataStartAddress : Nat := 0x0100

/-- Modelled from the spec: the size in bytes of one fixed-size sector
descriptor in the track's sector information list. -/
def sectorInformationBlockSize : Nat := 8

/-- Modelled from the spec: one fixed-size sector descriptor — the sector's
identity fields (track, side, sector ID), its sector-size code, controller
status bytes and two unused bytes. -/
structure SectorInformation where
  Track : Nat
  Side : Nat
  ID : Nat
  Size : Nat
  FDC1 : Nat
  FDC2 : Nat
  Unused : List Nat
  deriving Repr, DecidableEq, Inhabited

/-- Modelled from the spec: decoding one 8-byte sector descriptor; errors
when fewer than 8 bytes remain. -/
def SectorInformation.Read (s : List Nat) :
    Except DskError (SectorInformation × List Nat) :=
  match readBytes sectorInformationBlockSize s with
  | none => Except.error DskError.truncated
  | some (b, rest) =>
      Except.ok ({ Track := b[0]!, Side := b[1]!, ID := b[2]!, Size := b[3]!,
                   FDC1 := b[4]!, FDC2 := b[5]!, Unused := b.drop 6 }, rest)

/-- Modelled from the spec: the payload byte length derived from the
descriptor's sector-size code (`0x80 << code`). -/
def SectorInformation.SectorByteSize (sec : SectorInformation) : Nat :=
  128 * 2 ^ sec.Size

/-- Modelled from the spec: reading one sector payload of the derived byte
length; errors when fewer bytes remain. -/
def SectorInformation.DataRead (sec : SectorInformation) (s : List Nat) :
    Except DskError (List Nat × List Nat) :=
  match readBytes sec.SectorByteSize s with
  | none => Except.error DskError.truncated
  | some (d, rest) => Except.ok (d, rest)

structure TrackInformation where
  Identifier : List Nat
  Unused1 : List Nat
  Track : Nat
  Side : Nat
  Unused2 : List Nat
  SectorSize : Nat
  SectorsCount : Nat
  GapLength : Nat
  FillerByte : Nat
  Sectors : List SectorInformation
  Data : List (List Nat)
  deriving Repr, DecidableEq

/-- The Go zero value of `TrackInformation`. -/
def TrackInformation.zero : TrackInformation :=
  { Identifier := List.replicate 13 0, Unused1 := List.replicate 3 0,
    Track := 0, Side := 0, Unused2 := List.replicate 2 0, SectorSize := 0,
    SectorsCount := 0, GapLength := 0, FillerByte := 0,
    Sectors := [], Data := [] }

/-- The `for i := 0; i < int(t.SectorsCount); i++` loop of
`readSectorInformationBlocks`: `n` remaining iterations, `i` the current
index (for the error message), descriptors appended to `acc`. -/
def readSectorsLoop :
    Nat → Nat → List SectorInformation → List Nat →
      List SectorInformation × List Nat × Option DskError
  | 0, _, acc, s => (acc, s, none)
  | n + 1, i, acc, s =>
    match SectorInformation.Read s with
    | Except.error e =>
        (acc, s, some (DskError.wrap ("error reading sector #" ++ toString (i + 1)) e))
    | Except.ok (sec, s') => readSectorsLoop n (i + 1) (acc ++ [sec]) s'

/-- `TrackInformation.readSectorInformationBlocks`: decode `SectorsCount`
descriptors, appending each to the receiver's `Sectors`. -/
def TrackInformation.readSectorInformationBlocks (t : TrackInformation)
    (s : List Nat) : TrackInformation × List Nat × Option DskError :=
  match readSectorsLoop t.SectorsCount 0 t.Sectors s with
  | (secs, s', e) => ({ t with Sectors := secs }, s', e)

/-- `TrackInformation.setBufferToDataAddress`: discard
`sectorDataStartAddress - (trackInformationBlockSize + SectorsCount * sectorInformationBlockSize)`
bytes (Go `int` arithmetic, hence `Int` here). -/
def TrackInformation.setBufferToDataAddress (t : TrackInformation)
    (s : List Nat) : List Nat × Option DskError :=
  match discard ((sectorDataStartAddress : Int) -
      ((trackInformationBlockSize : Int) +
        (t.SectorsCount : Int) * (sectorInformationBlockSize : Int))) s with
  | Except.error e =>
      (s, some (DskError.wrap "error moving reader position to 0x0100" e))
  | Except.ok s' => (s', none)

/-- The `for i, s := range t.Sectors` loop of `readSectorData`: one payload
per descriptor, appended to `acc`; `i` is the current index (for the error
message, 0-based as in the source). -/
def readDataLoop :
    List SectorInformation → Nat → List (List Nat) → List Nat →
      List (List Nat) × List Nat × Option DskError
  | [], _, acc, s => (acc, s, none)
  | sec :: rest, i, acc, s =>
    match sec.DataRead s with
    | Except.error e =>
        (acc, s, some (DskError.wrap ("error reading sector #" ++ toString i) e))
    | Except.ok (d, s') => readDataLoop rest (i + 1) (acc ++ [d]) s'

/-- `TrackInformation.readSectorData`: read one payload per entry of
`Sectors`, in order, appending each to the receiver's `Data`. -/
def TrackInformation.readSectorData (t : TrackInformation) (s : List Nat) :
    TrackInformation × List Nat × Option DskError :=
  match readDataLoop t.Sectors 0 t.Data s with
  | (ds, s', e) => ({ t with Data := ds }, s', e)

/-- The 24-byte header reads at the top of `TrackInformation.Read`, in
source order: 13-byte identifier, 3 unused bytes, track, side, 2 unused
bytes, sector size, sector count, gap length, filler byte. -/
def TrackInformation.readHeader (t : TrackInformation) (s : List Nat) :
    Option (TrackInformation × List Nat) :=
  match readBytes 13 s with
  | none => none
  | some (ident, s1) =>
  match readBytes 3 s1 with
  | none => none
  | some (u1, s2) =>
  match readByte s2 with
  | none => none
  | some (track, s3) =>
  match readByte s3 with
  | none => none
  | some (side, s4) =>
  match readBytes 2 s4 with
  | none => none
  | some (u2, s5) =>
  match readByte s5 with
  | none => none
  | some (ssize, s6) =>
  match readByte s6 with
  | none => none
  | some (scount, s7) =>
  match readByte s7 with
  | none => none
  | some (gap, s8) =>
  match readByte s8 with
  | none => none
  | some (filler, s9) =>
    some ({ t with
            Identifier := ident
            Unused1 := u1
            Track := track
            Side := side
            Unused2 := u2
            SectorSize := ssize
            SectorsCount := scount
            GapLength := gap
            FillerByte := filler }, s9)

/-- The remainder of `TrackInformation.Read` after the header reads: the
three phases chained with early return on error, as in the source. -/
def TrackInformation.readRest (t : TrackInformation) (s : List Nat) :
    TrackInformation × List Nat × Option DskError :=
  match t.readSectorInformationBlocks s with
  | (t1, s1, some e) => (t1, s1, some e)
  | (t1, s1, none) =>
    match t1.setBufferToDataAddress s1 with
    | (s2, some e) => (t1, s2, some e)
    | (s2, none) => t1.readSectorData s2

/-- `TrackInformation.Read`: the 24-byte header reads followed by
descriptor decode, the discard to `0x100`, and the payload reads. -/
def TrackInformation.Read (t : TrackInformation) (s : List Nat) :
    TrackInformation × List Nat × Option DskError :=
  match t.readHeader s with
  | none => (t, s, some DskError.truncated)
  | some (t1, s1) => t1.readRest s1

/-! ### Header lemmas -/

theorem drop_readByte (s : List Nat) (n : Nat) (h : n < s.length) :
    readByte (s.drop n) = some (s[n]!, s.drop (n + 1)) := by
  rw [List.drop_eq_getElem_cons h, getElem!_pos s n h]
  rfl

theorem readBytes_drop (s : List Nat) (n k : Nat) (h : n + k ≤ s.length) :
    readBytes k (s.drop n) = some ((s.drop n).take k, s.drop (n + k)) := by
  have hk : k ≤ (s.drop n).length := by
    simp only [List.length_drop]; omega
  simp only [readBytes, if_pos hk, List.drop_drop, Nat.add_comm]

/-- The header record assigned by the 24-byte header reads of
`TrackInformation.Read`, field by field from the byte positions of the
stream. -/
def headerRecord (t : TrackInformation) (s : List Nat) : TrackInformation :=
  { t with
    Identifier := s.take 13
    Unused1 := (s.drop 13).take 3
    Track := s[16]!
    Side := s[17]!
    Unused2 := (s.drop 18).take 2
    SectorSize := s[20]!
    SectorsCount := s[21]!
    GapLength := s[22]!
    FillerByte := s[23]! }

theorem headerRecord_sectorsCount (t : TrackInformation) (s : List Nat) :
    (headerRecord t s).SectorsCount = s[21]! := rfl

theorem headerRecord_sectors (t : TrackInformation) (s : List Nat) :
    (headerRecord t s).Sectors = t.Sectors := rfl

theorem headerRecord_update_sectorsCount (t : TrackInformation) (s : List Nat)
    (x : List SectorInformation) :
    ({ headerRecord t s with Sectors := x } : TrackInformation).SectorsCount =
      s[21]! := rfl

theorem headerRecord_data (t : TrackInformation) (s : List Nat) :
    (headerRecord t s).Data = t.Data := rfl

theorem zero_data : TrackInformation.zero.Data = [] := rfl

theorem readHeader_eq (t : TrackInformation) (s : List Nat) (h : 24 ≤ s.length) :
    t.readHeader s = some (headerRecord t s, s.drop 24) := by
  have h13 : readBytes 13 s = some (s.take 13, s.drop 13) := by
    simp only [readBytes, if_pos (by omega : 13 ≤ s.length)]
  have h16 : readBytes 3 (s.drop 13) = some ((s.drop 13).take 3, s.drop 16) := by
    simpa using readBytes_drop s 13 3 (by omega)
  have h17 : readByte (s.drop 16) = some (s[16]!, s.drop 17) := by
    simpa using drop_readByte s 16 (by omega)
  have h18 : readByte (s.drop 17) = some (s[17]!, s.drop 18) := by
    simpa using drop_readByte s 17 (by omega)
  have h20 : readBytes 2 (s.drop 18) = some ((s.drop 18).take 2, s.drop 20) := by
    simpa using readBytes_drop s 18 2 (by omega)
  have h21 : readByte (s.drop 20) = some (s[20]!, s.drop 21) := by
    simpa using drop_readByte s 20 (by omega)
  have h22 : readByte (s.drop 21) = some (s[21]!, s.drop 22) := by
    simpa using drop_readByte s 21 (by omega)
  have h23 : readByte (s.drop 22) = some (s[22]!, s.drop 23) := by
    simpa using drop_readByte s 22 (by omega)
  have h24 : readByte (s.drop 23) = some (s[23]!, s.drop 24) := by
    simpa using drop_readByte s 23 (by omega)
  simp only [TrackInformation.readHeader, h13, h16, h17, h18, h20, h21, h22,
    h23, h24, headerRecord]

/-- C6: on any input of at least 24 bytes, `TrackInformation.Read` consumes
exactly 24 bytes for the track header, assigning the fields in declared byte
order (13-byte identifier, 3 unused, track, side, 2 unused, sector size,
sector count, gap length, filler), and hands the rest of the decode the
stream starting at byte 24. -/
theorem trackInformation_read_header (t : TrackInformation) (s : List Nat)
    (h : 24 ≤ s.length) :
    t.readHeader s = some (headerRecord t s, s.drop 24) ∧
    TrackInformation.Read t s =
      TrackInformation.readRest (headerRecord t s) (s.drop 24) := by
  have hh := readHeader_eq t s h
  exact ⟨hh, by simp only [TrackInformation.Read, hh]⟩

/-- Witness for C6 at the 24-byte input `0, 1, ..., 23`. -/
theorem trackInformation_read_header_witness :
    TrackInformation.readHeader TrackInformation.zero (List.range 24) =
      some (headerRecord TrackInformation.zero (List.range 24),
            (List.range 24).drop 24) ∧
    TrackInformation.Read TrackInformation.zero (List.range 24) =
      TrackInformation.readRest
        (headerRecord TrackInformation.zero (List.range 24))
        ((List.range 24).drop 24) :=
  trackInformation_read_header TrackInformation.zero (List.range 24) (by decide)

/-! ### Sector descriptor loop lemmas -/

/-- The descriptor decoded from one 8-byte slice. -/
def decodeSector (b : List Nat) : SectorInformation :=
  { Track := b[0]!, Side := b[1]!, ID := b[2]!, Size := b[3]!,
    FDC1 := b[4]!, FDC2 := b[5]!, Unused := b.drop 6 }

/-- The `n` consecutive 8-byte descriptors at the front of a stream, in
stream order. -/
def sectorsOf : Nat → List Nat → List SectorInformation
  | 0, _ => []
  | n + 1, s => decodeSector (s.take 8) :: sectorsOf n (s.drop 8)

theorem sectorRead_ok (s : List Nat) (h : 8 ≤ s.length) :
    SectorInformation.Read s = Except.ok (decodeSector (s.take 8), s.drop 8) := by
  simp only [SectorInformation.Read, sectorInformationBlockSize, readBytes,
    if_pos h, decodeSector]

theorem sectorRead_inv (s : List Nat) (sec : SectorInformation) (s' : List Nat)
    (h : SectorInformation.Read s = Except.ok (sec, s')) :
    8 ≤ s.length ∧ sec = decodeSector (s.take 8) ∧ s' = s.drop 8 := by
  by_cases h8 : 8 ≤ s.length
  · rw [sectorRead_ok s h8] at h
    simp only [Except.ok.injEq, Prod.mk.injEq] at h
    exact ⟨h8, h.1.symm, h.2.symm⟩
  · simp only [SectorInformation.Read, sectorInformationBlockSize, readBytes,
      if_neg h8] at h
    exact absurd h (by simp)

theorem readSectorsLoop_ok (n : Nat) :
    ∀ (i : Nat) (acc : List SectorInformation) (s : List Nat),
      8 * n ≤ s.length →
      readSectorsLoop n i acc s = (acc ++ sectorsOf n s, s.drop (8 * n), none) := by
  induction n with
  | zero => intro i acc s _; simp [readSectorsLoop, sectorsOf]
  | succ k ih =>
    intro i acc s h
    have h8 : 8 ≤ s.length := by omega
    have hrec : 8 * k ≤ (s.drop 8).length := by
      simp only [List.length_drop]; omega
    simp only [readSectorsLoop, sectorRead_ok s h8]
    rw [ih (i + 1) (acc ++ [decodeSector (s.take 8)]) (s.drop 8) hrec]
    simp only [sectorsOf, List.append_assoc, List.singleton_append,
      List.drop_drop]
    rw [show 8 + 8 * k = 8 * (k + 1) from by ring]

theorem readSectorsLoop_none (n : Nat) :
    ∀ (i : Nat) (acc : List SectorInformation) (s : List Nat)
      (secs : List SectorInformation) (s' : List Nat),
      readSectorsLoop n i acc s = (secs, s', none) →
      secs = acc ++ sectorsOf n s ∧ s' = s.drop (8 * n) ∧ 8 * n ≤ s.length := by
  induction n with
  | zero =>
    intro i acc s secs s' h
    simp only [readSectorsLoop, Prod.mk.injEq] at h
    simp [← h.1, ← h.2.1, sectorsOf]
  | succ k ih =>
    intro i acc s secs s' h
    simp only [readSectorsLoop] at h
    split at h
    · simp at h
    · rename_i sec srest hread
      obtain ⟨h8, hsec, hrest⟩ := sectorRead_inv s sec srest hread
      obtain ⟨h1, h2, h3⟩ := ih _ _ _ _ _ h
      subst hsec hrest
      simp only [List.length_drop] at h3
      refine ⟨?_, ?_, by omega⟩
      · rw [h1]; simp [sectorsOf]
      · rw [h2, List.drop_drop]; congr 1; omega

theorem readSectorsLoop_short (n : Nat) :
    ∀ (i : Nat) (acc : List SectorInformation) (s : List Nat),
      s.length < 8 * n →
      ((readSectorsLoop n i acc s).2.2).isSome ∧
      (readSectorsLoop n i acc s).1.length = acc.length + s.length / 8 := by
  induction n with
  | zero => intro i acc s h; omega
  | succ k ih =>
    intro i acc s h
    by_cases h8 : 8 ≤ s.length
    · have hlt : (s.drop 8).length < 8 * k := by
        simp only [List.length_drop]; omega
      simp only [readSectorsLoop, sectorRead_ok s h8]
      obtain ⟨hsome, hlen⟩ := ih (i + 1) (acc ++ [decodeSector (s.take 8)]) (s.drop 8) hlt
      refine ⟨hsome, ?_⟩
      rw [hlen]
      simp only [List.length_append, List.length_cons, List.length_nil,
        List.length_drop]
      omega
    · have hfail : SectorInformation.Read s = Except.error DskError.truncated := by
        simp only [SectorInformation.Read, sectorInformationBlockSize, readBytes]
        rw [if_neg (by omega)]
      simp only [readSectorsLoop, hfail]
      refine ⟨rfl, ?_⟩
      have : s.length / 8 = 0 := by omega
      simp [this]

/-! ### Payload loop lemmas -/

/-- The payloads read for a descriptor list from the front of a stream, in
descriptor order with no gaps. -/
def sectorPayloads : List SectorInformation → List Nat → List (List Nat)
  | [], _ => []
  | sec :: rest, s =>
      s.take sec.SectorByteSize :: sectorPayloads rest (s.drop sec.SectorByteSize)

/-- The total number of payload bytes a descriptor list demands. -/
def sizesSum (ss : List SectorInformation) : Nat :=
  (ss.map SectorInformation.SectorByteSize).sum

theorem dataRead_ok (sec : SectorInformation) (s : List Nat)
    (h : sec.SectorByteSize ≤ s.length) :
    sec.DataRead s = Except.ok (s.take sec.SectorByteSize, s.drop sec.SectorByteSize) := by
  simp only [SectorInformation.DataRead, readBytes, if_pos h]

theorem dataRead_inv (sec : SectorInformation) (s d s' : List Nat)
    (h : sec.DataRead s = Except.ok (d, s')) :
    sec.SectorByteSize ≤ s.length ∧ d = s.take sec.SectorByteSize ∧
      s' = s.drop sec.SectorByteSize := by
  by_cases hle : sec.SectorByteSize ≤ s.length
  · rw [dataRead_ok sec s hle] at h
    simp only [Except.ok.injEq, Prod.mk.injEq] at h
    exact ⟨hle, h.1.symm, h.2.symm⟩
  · simp only [SectorInformation.DataRead, readBytes, if_neg hle] at h
    exact absurd h (by simp)

theorem readDataLoop_ok (ss : List SectorInformation) :
    ∀ (i : Nat) (acc : List (List Nat)) (s : List Nat),
      sizesSum ss ≤ s.length →
      readDataLoop ss i acc s = (acc ++ sectorPayloads ss s, s.drop (sizesSum ss), none) := by
  induction ss with
  | nil => intro i acc s _; simp [readDataLoop, sectorPayloads, sizesSum]
  | cons sec rest ih =>
    intro i acc s h
    have hsum : sizesSum (sec :: rest) = sec.SectorByteSize + sizesSum rest := by
      simp [sizesSum]
    have hle : sec.SectorByteSize ≤ s.length := by omega
    have hrec : sizesSum rest ≤ (s.drop sec.SectorByteSize).length := by
      simp only [List.length_drop]; omega
    simp only [readDataLoop, dataRead_ok sec s hle]
    rw [ih (i + 1) (acc ++ [s.take sec.SectorByteSize]) (s.drop sec.SectorByteSize) hrec]
    simp only [sectorPayloads, List.append_assoc, List.singleton_append,
      List.drop_drop, hsum]

theorem readDataLoop_none (ss : List SectorInformation) :
    ∀ (i : Nat) (acc : List (List Nat)) (s : List Nat)
      (ds : List (List Nat)) (s' : List Nat),
      readDataLoop ss i acc s = (ds, s', none) →
      ds = acc ++ sectorPayloads ss s ∧ s' = s.drop (sizesSum ss) ∧
        sizesSum ss ≤ s.length := by
  induction ss with
  | nil =>
    intro i acc s ds s' h
    simp only [readDataLoop, Prod.mk.injEq] at h
    simp [← h.1, ← h.2.1, sectorPayloads, sizesSum]
  | cons sec rest ih =>
    intro i acc s ds s' h
    simp only [readDataLoop] at h
    split at h
    · simp at h
    · rename_i d srest hread
      obtain ⟨hle, hd, hrest⟩ := dataRead_inv sec s d srest hread
      obtain ⟨h1, h2, h3⟩ := ih _ _ _ _ _ h
      subst hd hrest
      simp only [List.length_drop] at h3
      have hsum : sizesSum (sec :: rest) = sec.SectorByteSize + sizesSum rest := by
        simp [sizesSum]
      refine ⟨?_, ?_, by omega⟩
      · rw [h1]; simp [sectorPayloads]
      · rw [h2, List.drop_drop, hsum, Nat.add_comm]

theorem readDataLoop_short (ss : List SectorInformation) :
    ∀ (j i : Nat) (acc : List (List Nat)) (s : List Nat),
      j < ss.length →
      sizesSum (ss.take j) ≤ s.length →
      s.length < sizesSum (ss.take (j + 1)) →
      ((readDataLoop ss i acc s).2.2).isSome ∧
      (readDataLoop ss i acc s).1.length = acc.length + j := by
  induction ss with
  | nil => intro j i acc s hj _ _; simp at hj
  | cons sec rest ih =>
    intro j i acc s hj hlo hhi
    match j with
    | 0 =>
      have hfail : sec.DataRead s = Except.error DskError.truncated := by
        simp only [List.take_succ_cons, List.take_zero, sizesSum,
          List.map_cons, List.map_nil, List.sum_cons, List.sum_nil] at hhi
        simp only [SectorInformation.DataRead, readBytes]
        rw [if_neg (by omega)]
      simp only [readDataLoop, hfail]
      exact ⟨rfl, by simp⟩
    | j' + 1 =>
      have hsum : ∀ (l : List SectorInformation),
          sizesSum (sec :: l) = sec.SectorByteSize + sizesSum l := by
        intro l; simp [sizesSum]
      simp only [List.take_succ_cons, hsum] at hlo hhi
      have hle : sec.SectorByteSize ≤ s.length := by omega
      have hj' : j' < rest.length := by simpa using hj
      have hlo' : sizesSum (rest.take j') ≤ (s.drop sec.SectorByteSize).length := by
        simp only [List.length_drop]; omega
      have hhi' : (s.drop sec.SectorByteSize).length < sizesSum (rest.take (j' + 1)) := by
        simp only [List.length_drop]; omega
      simp only [readDataLoop, dataRead_ok sec s hle]
      obtain ⟨hsome, hlen⟩ := ih j' (i + 1) (acc ++ [s.take sec.SectorByteSize])
        (s.drop sec.SectorByteSize) hj' hlo' hhi'
      refine ⟨hsome, ?_⟩
      rw [hlen]
      simp only [List.length_append, List.length_cons, List.length_nil]
      omega

theorem sectorPayloads_flatten (ss : List SectorInformation) :
    ∀ (s : List Nat), sizesSum ss ≤ s.length →
      (sectorPayloads ss s).flatten ++ s.drop (sizesSum ss) = s := by
  induction ss with
  | nil => intro s _; simp [sectorPayloads, sizesSum]
  | cons sec rest ih =>
    intro s h
    have hsum : sizesSum (sec :: rest) = sec.SectorByteSize + sizesSum rest := by
      simp [sizesSum]
    have hrec : sizesSum rest ≤ (s.drop sec.SectorByteSize).length := by
      simp only [List.length_drop]; omega
    simp only [sectorPayloads, List.flatten_cons, List.append_assoc, hsum]
    rw [← List.drop_drop, ih (s.drop sec.SectorByteSize) hrec,
      List.take_append_drop]

/-! ### Inversion lemmas for the header and the discard phase -/

theorem readBytes_inv (k : Nat) (s b s' : List Nat)
    (h : readBytes k s = some (b, s')) :
    k ≤ s.length ∧ s'.length = s.length - k := by
  simp only [readBytes] at h
  split at h
  · simp only [Option.some.injEq, Prod.mk.injEq] at h
    rename_i hk
    refine ⟨hk, ?_⟩
    rw [← h.2]
    simp
  · exact absurd h (by simp)

theorem readByte_inv (s : List Nat) (b : Nat) (s' : List Nat)
    (h : readByte s = some (b, s')) :
    s'.length + 1 = s.length := by
  match s with
  | [] => simp [readByte] at h
  | x :: rest =>
    simp only [readByte, Option.some.injEq, Prod.mk.injEq] at h
    rw [← h.2]
    simp

theorem readHeader_none (t : TrackInformation) (s : List Nat) (h : s.length < 24) :
    t.readHeader s = none := by
  simp only [TrackInformation.readHeader]
  split
  · rfl
  next ident s1 heq1 =>
  obtain ⟨hl1, he1⟩ := readBytes_inv 13 s ident s1 heq1
  split
  · rfl
  next u1 s2 heq2 =>
  obtain ⟨hl2, he2⟩ := readBytes_inv 3 s1 u1 s2 heq2
  split
  · rfl
  next track s3 heq3 =>
  have he3 := readByte_inv s2 track s3 heq3
  split
  · rfl
  next side s4 heq4 =>
  have he4 := readByte_inv s3 side s4 heq4
  split
  · rfl
  next u2 s5 heq5 =>
  obtain ⟨hl5, he5⟩ := readBytes_inv 2 s4 u2 s5 heq5
  split
  · rfl
  next ssize s6 heq6 =>
  have he6 := readByte_inv s5 ssize s6 heq6
  split
  · rfl
  next scount s7 heq7 =>
  have he7 := readByte_inv s6 scount s7 heq7
  split
  · rfl
  next gap s8 heq8 =>
  have he8 := readByte_inv s7 gap s8 heq8
  split
  · rfl
  next filler s9 heq9 =>
  have he9 := readByte_inv s8 filler s9 heq9
  exfalso
  omega

theorem readHeader_some_inv (t : TrackInformation) (s : List Nat)
    (p : TrackInformation × List Nat) (h : t.readHeader s = some p) :
    24 ≤ s.length ∧ p = (headerRecord t s, s.drop 24) := by
  by_cases h24 : 24 ≤ s.length
  · rw [readHeader_eq t s h24] at h
    simp only [Option.some.injEq] at h
    exact ⟨h24, h.symm⟩
  · rw [readHeader_none t s (by omega)] at h
    exact absurd h (by simp)

theorem discard_nonneg (n : Int) (s : List Nat) (h0 : 0 ≤ n)
    (hle : n.toNat ≤ s.length) :
    discard n s = Except.ok (s.drop n.toNat) := by
  simp only [discard]
  rw [if_neg (by omega), if_pos hle]

theorem discard_neg (n : Int) (s : List Nat) (h : n < 0) :
    discard n s = Except.error DskError.negativeCount := by
  simp only [discard]
  rw [if_pos h]

theorem discard_ok_inv (n : Int) (s s' : List Nat)
    (h : discard n s = Except.ok s') :
    0 ≤ n ∧ n.toNat ≤ s.length ∧ s' = s.drop n.toNat := by
  by_cases hneg : n < 0
  · rw [discard_neg n s hneg] at h
    exact absurd h (by simp)
  · by_cases hle : n.toNat ≤ s.length
    · rw [discard_nonneg n s (by omega) hle] at h
      simp only [Except.ok.injEq] at h
      exact ⟨by omega, hle, h.symm⟩
    · simp only [discard] at h
      rw [if_neg hneg, if_neg hle] at h
      exact absurd h (by simp)

/-- The (Go `int`) count handed to `Discard` by `setBufferToDataAddress`. -/
def discardCount (t : TrackInformation) : Int :=
  (sectorDataStartAddress : Int) -
    ((trackInformationBlockSize : Int) +
      (t.SectorsCount : Int) * (sectorInformationBlockSize : Int))

theorem discardCount_toNat (t : TrackInformation) (hc : t.SectorsCount ≤ 29) :
    (discardCount t).toNat = 232 - 8 * t.SectorsCount := by
  simp only [discardCount, sectorDataStartAddress, trackInformationBlockSize,
    sectorInformationBlockSize]
  omega

theorem setBuffer_ok (t : TrackInformation) (s : List Nat)
    (hc : t.SectorsCount ≤ 29)
    (hlen : 232 - 8 * t.SectorsCount ≤ s.length) :
    t.setBufferToDataAddress s = (s.drop (232 - 8 * t.SectorsCount), none) := by
  have h0 : (0 : Int) ≤ discardCount t := by
    simp only [discardCount, sectorDataStartAddress, trackInformationBlockSize,
      sectorInformationBlockSize]
    omega
  have hN := discardCount_toNat t hc
  have hd : discard (discardCount t) s = Except.ok (s.drop (232 - 8 * t.SectorsCount)) := by
    rw [discard_nonneg (discardCount t) s h0 (by rw [hN]; exact hlen), hN]
  simp only [TrackInformation.setBufferToDataAddress]
  show (match discard (discardCount t) s with
    | Except.error e => (s, some (DskError.wrap "error moving reader position to 0x0100" e))
    | Except.ok s' => (s', none)) = _
  rw [hd]

theorem setBuffer_overflow (t : TrackInformation) (s : List Nat)
    (hc : 30 ≤ t.SectorsCount) :
    t.setBufferToDataAddress s =
      (s, some (DskError.wrap "error moving reader position to 0x0100"
                DskError.negativeCount)) := by
  have hneg : discardCount t < 0 := by
    simp only [discardCount, sectorDataStartAddress, trackInformationBlockSize,
      sectorInformationBlockSize]
    omega
  have hd := discard_neg (discardCount t) s hneg
  simp only [TrackInformation.setBufferToDataAddress]
  show (match discard (discardCount t) s with
    | Except.error e => (s, some (DskError.wrap "error moving reader position to 0x0100" e))
    | Except.ok s' => (s', none)) = _
  rw [hd]

theorem setBuffer_none (t : TrackInformation) (s s' : List Nat)
    (h : t.setBufferToDataAddress s = (s', none)) :
    t.SectorsCount ≤ 29 ∧ 232 - 8 * t.SectorsCount ≤ s.length ∧
      s' = s.drop (232 - 8 * t.SectorsCount) := by
  have h2 : (match discard (discardCount t) s with
      | Except.error e => (s, some (DskError.wrap "error moving reader position to 0x0100" e))
      | Except.ok s2 => (s2, none)) = (s', none) := h
  clear h
  split at h2
  · exact absurd h2 (by simp)
  · rename_i s2 heq
    obtain ⟨h0, hle, hs2⟩ := discard_ok_inv (discardCount t) s s2 heq
    have hc : t.SectorsCount ≤ 29 := by
      simp only [discardCount, sectorDataStartAddress,
        trackInformationBlockSize, sectorInformationBlockSize] at h0
      omega
    have hN := discardCount_toNat t hc
    simp only [Prod.mk.injEq] at h2
    refine ⟨hc, by omega, ?_⟩
    rw [← h2.1, hs2, hN]

/-! ### Success inversion for `TrackInformation.Read` -/

theorem sectorsOf_length (n : Nat) : ∀ s : List Nat, (sectorsOf n s).length = n := by
  induction n with
  | zero => intro s; simp [sectorsOf]
  | succ k ih => intro s; simp [sectorsOf, ih]

theorem sectorPayloads_length (ss : List SectorInformation) :
    ∀ s : List Nat, (sectorPayloads ss s).length = ss.length := by
  induction ss with
  | nil => intro s; simp [sectorPayloads]
  | cons sec rest ih => intro s; simp [sectorPayloads, ih]

theorem sectorPayloads_entry_length (ss : List SectorInformation) :
    ∀ (s : List Nat) (i : Nat), i < ss.length → sizesSum ss ≤ s.length →
      ((sectorPayloads ss s)[i]!).length = (ss[i]!).SectorByteSize := by
  induction ss with
  | nil => intro s i hi _; simp at hi
  | cons sec rest ih =>
    intro s i hi hlen
    have hsum : sizesSum (sec :: rest) = sec.SectorByteSize + sizesSum rest := by
      simp [sizesSum]
    match i with
    | 0 =>
      simp only [sectorPayloads]
      rw [List.getElem!_cons_zero, List.getElem!_cons_zero, List.length_take]
      omega
    | j + 1 =>
      simp only [sectorPayloads]
      rw [List.getElem!_cons_succ, List.getElem!_cons_succ]
      refine ih (s.drop sec.SectorByteSize) j (by simpa using hi) ?_
      simp only [List.length_drop]
      omega

theorem readSectorInfo_none_inv (t : TrackInformation) (s : List Nat)
    (t' : TrackInformation) (s' : List Nat)
    (h : t.readSectorInformationBlocks s = (t', s', none)) :
    t'.Sectors = t.Sectors ++ sectorsOf t.SectorsCount s ∧
    t'.SectorsCount = t.SectorsCount ∧
    t'.Data = t.Data ∧
    s' = s.drop (8 * t.SectorsCount) ∧
    8 * t.SectorsCount ≤ s.length := by
  simp only [TrackInformation.readSectorInformationBlocks] at h
  obtain ⟨⟨secs, s2, e2⟩, hloop⟩ :
      ∃ q, readSectorsLoop t.SectorsCount 0 t.Sectors s = q := ⟨_, rfl⟩
  rw [hloop] at h
  simp only [Prod.mk.injEq] at h
  obtain ⟨h1, h2, h3⟩ := h
  subst h3
  obtain ⟨hsecs, hs2, hlen⟩ := readSectorsLoop_none _ _ _ _ _ _ hloop
  subst hsecs hs2 h2
  rw [← h1]
  exact ⟨rfl, rfl, rfl, rfl, hlen⟩

theorem readSectorData_none_inv (t : TrackInformation) (s : List Nat)
    (t' : TrackInformation) (s' : List Nat)
    (h : t.readSectorData s = (t', s', none)) :
    t'.Data = t.Data ++ sectorPayloads t.Sectors s ∧
    t'.Sectors = t.Sectors ∧
    t'.SectorsCount = t.SectorsCount ∧
    s' = s.drop (sizesSum t.Sectors) ∧
    sizesSum t.Sectors ≤ s.length := by
  simp only [TrackInformation.readSectorData] at h
  obtain ⟨⟨ds, s2, e2⟩, hdl⟩ :
      ∃ q, readDataLoop t.Sectors 0 t.Data s = q := ⟨_, rfl⟩
  rw [hdl] at h
  simp only [Prod.mk.injEq] at h
  obtain ⟨h1, h2, h3⟩ := h
  subst h3
  obtain ⟨hds, hs2, hlen⟩ := readDataLoop_none _ _ _ _ _ _ hdl
  subst hds hs2 h2
  rw [← h1]
  exact ⟨rfl, rfl, rfl, rfl, hlen⟩

theorem readRest_none_inv (t1 : TrackInformation) (s1 : List Nat)
    (t : TrackInformation) (rest : List Nat)
    (h : t1.readRest s1 = (t, rest, none)) :
    t.SectorsCount = t1.SectorsCount ∧
    t.Sectors = t1.Sectors ++ sectorsOf t1.SectorsCount s1 ∧
    t1.SectorsCount ≤ 29 ∧
    8 * t1.SectorsCount ≤ s1.length ∧
    t.Data = t1.Data ++ sectorPayloads t.Sectors
      ((s1.drop (8 * t1.SectorsCount)).drop (232 - 8 * t1.SectorsCount)) ∧
    rest = ((s1.drop (8 * t1.SectorsCount)).drop
      (232 - 8 * t1.SectorsCount)).drop (sizesSum t.Sectors) ∧
    sizesSum t.Sectors ≤
      ((s1.drop (8 * t1.SectorsCount)).drop (232 - 8 * t1.SectorsCount)).length := by
  simp only [TrackInformation.readRest] at h
  obtain ⟨⟨t2, s2, e2⟩, hph1⟩ :
      ∃ q, t1.readSectorInformationBlocks s1 = q := ⟨_, rfl⟩
  rw [hph1] at h
  cases e2 with
  | some e => simp at h
  | none =>
  simp only [] at h
  obtain ⟨⟨s3, e3⟩, hbuf⟩ : ∃ q, t2.setBufferToDataAddress s2 = q := ⟨_, rfl⟩
  rw [hbuf] at h
  cases e3 with
  | some e => simp at h
  | none =>
  simp only [] at h
  obtain ⟨hS, hC, hD, hs2, hlen1⟩ := readSectorInfo_none_inv t1 s1 t2 s2 hph1
  obtain ⟨hc29, hblen, hs3⟩ := setBuffer_none t2 s2 s3 hbuf
  obtain ⟨hD2, hS2, hC2, hs4, hlen3⟩ := readSectorData_none_inv t2 s3 t rest h
  have hcc : t.SectorsCount = t1.SectorsCount := by rw [hC2, hC]
  have hss : t.Sectors = t1.Sectors ++ sectorsOf t1.SectorsCount s1 := by
    rw [hS2, hS]
  have hs3' : s3 = (s1.drop (8 * t1.SectorsCount)).drop
      (232 - 8 * t1.SectorsCount) := by
    rw [hs3, hs2, hC]
  refine ⟨hcc, hss, by rw [← hC]; exact hc29, hlen1, ?_, ?_, ?_⟩
  · rw [hD2, hD, hS2, hs3']
  · rw [hs4, hS2, hs3']
  · rw [← hs3', hS2]
    exact hlen3

theorem read_zero_none_inv (s : List Nat) (t : TrackInformation)
    (rest : List Nat)
    (h : TrackInformation.Read TrackInformation.zero s = (t, rest, none)) :
    24 ≤ s.length ∧
    t.SectorsCount = s[21]! ∧
    s[21]! ≤ 29 ∧
    t.Sectors = sectorsOf (s[21]!) (s.drop 24) ∧
    t.Data = sectorPayloads t.Sectors (s.drop 256) ∧
    rest = (s.drop 256).drop (sizesSum t.Sectors) ∧
    sizesSum t.Sectors ≤ (s.drop 256).length := by
  simp only [TrackInformation.Read] at h
  cases hh : TrackInformation.zero.readHeader s with
  | none =>
    rw [hh] at h
    exact absurd h (by simp)
  | some p =>
    obtain ⟨h24, hp⟩ := readHeader_some_inv TrackInformation.zero s p hh
    subst hp
    rw [hh] at h
    obtain ⟨hcc, hss, hc29, hlen1, hdd, hrest, hlen3⟩ :=
      readRest_none_inv (headerRecord TrackInformation.zero s) (s.drop 24) t rest h
    have hhc : (headerRecord TrackInformation.zero s).SectorsCount = s[21]! := rfl
    have hhs : (headerRecord TrackInformation.zero s).Sectors = [] := rfl
    have hhd : (headerRecord TrackInformation.zero s).Data = [] := rfl
    rw [hhc] at hcc hc29
    have hdrop : ((s.drop 24).drop (8 * s[21]!)).drop (232 - 8 * s[21]!) =
        s.drop 256 := by
      rw [List.drop_drop, List.drop_drop]
      congr 1
      omega
    rw [hhc, hhs] at hss
    rw [List.nil_append] at hss
    rw [hhc, hhd, hdrop, List.nil_append] at hdd
    rw [hhc, hdrop] at hrest
    rw [hhc, hdrop] at hlen3
    exact ⟨h24, hcc, hc29, hss, hdd, hrest, hlen3⟩

/-- A one-sector track image: 24-byte header with sector count 1 (byte 21),
one all-zero descriptor, padding to offset 0x100, and one 128-byte payload. -/
def trackInput1 : List Nat := List.replicate 21 0 ++ 1 :: List.replicate 362 0

/-- The track value decoded from `trackInput1`. -/
def track1 : TrackInformation :=
  { Identifier := List.replicate 13 0, Unused1 := List.replicate 3 0,
    Track := 0, Side := 0, Unused2 := List.replicate 2 0, SectorSize := 0,
    SectorsCount := 1, GapLength := 0, FillerByte := 0,
    Sectors := [{ Track := 0, Side := 0, ID := 0, Size := 0, FDC1 := 0,
                  FDC2 := 0, Unused := [0, 0] }],
    Data := [List.replicate 128 0] }

/-- C4: for every `TrackInformation` produced by a successful (error-free)
`TrackInformation.Read` starting from the zero receiver,
`len(Sectors) = SectorsCount = len(Data)`. -/
theorem trackInformation_read_invariant (s : List Nat) (t : TrackInformation)
    (rest : List Nat)
    (h : TrackInformation.Read TrackInformation.zero s = (t, rest, none)) :
    t.Sectors.length = t.SectorsCount ∧ t.Data.length = t.SectorsCount := by
  obtain ⟨-, hcc, -, hss, hdd, -, -⟩ := read_zero_none_inv s t rest h
  constructor
  · rw [hss, sectorsOf_length (s[21]!) (s.drop 24), hcc]
  · rw [hdd, sectorPayloads_length t.Sectors (s.drop 256), hss,
      sectorsOf_length (s[21]!) (s.drop 24), hcc]

/-- Witness for C4 at the concrete one-sector input `trackInput1`. -/
theorem trackInformation_read_invariant_witness :
    track1.Sectors.length = track1.SectorsCount ∧
    track1.Data.length = track1.SectorsCount :=
  trackInformation_read_invariant trackInput1 track1 [] (by decide)

/-- C5: after a successful `TrackInformation.Read` from the zero receiver,
`Data` consists exactly of the consecutive slices of the stream starting at
offset 0x100, one per descriptor of `Sectors` in descriptor order with no
gaps or reordering, and each payload has the byte length its descriptor
derives. -/
theorem trackInformation_read_payload_order (s : List Nat)
    (t : TrackInformation) (rest : List Nat)
    (h : TrackInformation.Read TrackInformation.zero s = (t, rest, none)) :
    t.Data = sectorPayloads t.Sectors (s.drop 256) ∧
    t.Data.flatten ++ rest = s.drop 256 ∧
    t.Data.length = t.Sectors.length ∧
    ∀ i, i < t.Sectors.length →
      (t.Data[i]!).length = (t.Sectors[i]!).SectorByteSize := by
  obtain ⟨-, -, -, -, hdd, hrest, hlen⟩ := read_zero_none_inv s t rest h
  refine ⟨hdd, ?_, ?_, ?_⟩
  · rw [hdd, hrest]
    exact sectorPayloads_flatten t.Sectors (s.drop 256) hlen
  · rw [hdd, sectorPayloads_length t.Sectors (s.drop 256)]
  · intro i hi
    rw [hdd]
    exact sectorPayloads_entry_length t.Sectors (s.drop 256) i hi hlen

/-- Witness for C5 at the concrete one-sector input `trackInput1`. -/
theorem trackInformation_read_payload_order_witness :
    track1.Data = sectorPayloads track1.Sectors (trackInput1.drop 256) ∧
    track1.Data.flatten ++ ([] : List Nat) = trackInput1.drop 256 ∧
    track1.Data.length = track1.Sectors.length ∧
    (∀ i, i < track1.Sectors.length →
      (track1.Data[i]!).length = (track1.Sectors[i]!).SectorByteSize) :=
  trackInformation_read_payload_order trackInput1 track1 [] (by decide)

/-- A track image whose header declares 29 sectors: the descriptor table
ends exactly at the fixed data-start offset (`24 + 29*8 = 0x100`, zero
remainder).  The 24-byte header (sector count 29 at byte 21) is followed by
29 all-zero descriptors and 29 payloads of 128 bytes each
(`24 + 232 + 0 + 29*128 = 3968` bytes in total). -/
def trackInput29 : List Nat :=
  (List.replicate 21 0 ++ [29, 0, 0]) ++ List.replicate 3944 0

/-- Descriptors decoded from an all-zero stream are all-zero descriptors. -/
theorem sectorsOf_replicate_zero : ∀ (n m : Nat), 8 * n ≤ m →
    sectorsOf n (List.replicate m 0) =
      List.replicate n (decodeSector (List.replicate 8 0)) := by
  intro n
  induction n with
  | zero => intro m _; simp [sectorsOf]
  | succ k ih =>
    intro m h
    simp only [sectorsOf]
    rw [List.take_replicate, List.drop_replicate]
    have hmin : min 8 m = 8 := by omega
    rw [hmin, ih (m - 8) (by omega)]
    simp [List.replicate_succ]

/-- Counterexample to C3: for `SectorsCount = 29` the quantity
`24 + SectorsCount * descriptor_size` equals `0x100` exactly (a zero
remainder up to the fixed sector-data offset), yet `TrackInformation.Read`
succeeds on `trackInput29` — discarding zero bytes is not an error —
contradicting the claim that every track with
`24 + SectorsCount * 8 ≥ 0x100` fails. -/
theorem trackHeaderOverflow_zero_remainder_cex :
    trackInformationBlockSize + 29 * sectorInformationBlockSize = 0x100 ∧
    trackInput29[21]! = 29 ∧
    (TrackInformation.Read TrackInformation.zero trackInput29).2.2 = none := by
  have hlen : trackInput29.length = 3968 := by
    rw [trackInput29, List.length_append, List.length_append,
      List.length_replicate, List.length_replicate]
    decide
  have h21 : trackInput29[21]! = 29 := by
    rw [trackInput29, getElem!_pos _ 21 (by rw [List.length_append,
      List.length_append, List.length_replicate, List.length_replicate]; omega)]
    rw [List.getElem_append_left (by simp)]
    rw [List.getElem_append_right (by simp)]
    simp
  have h24 : 24 ≤ trackInput29.length := by omega
  have hdrop24 : trackInput29.drop 24 = List.replicate 3944 0 := by
    rw [trackInput29]
    have h' : (List.replicate 21 (0 : Nat) ++ [29, 0, 0]).length = 24 := by simp
    rw [← h', List.drop_left]
  refine ⟨by decide, h21, ?_⟩
  have hh := readHeader_eq TrackInformation.zero trackInput29 h24
  have hc : (headerRecord TrackInformation.zero trackInput29).SectorsCount = 29 :=
    (headerRecord_sectorsCount TrackInformation.zero trackInput29).trans h21
  have hs0 : (headerRecord TrackInformation.zero trackInput29).Sectors = [] :=
    headerRecord_sectors TrackInformation.zero trackInput29
  have hloop := readSectorsLoop_ok 29 0 [] (trackInput29.drop 24)
    (by rw [hdrop24, List.length_replicate]; omega)
  have hsecs29 : sectorsOf 29 (trackInput29.drop 24) =
      List.replicate 29 (decodeSector (List.replicate 8 0)) := by
    rw [hdrop24]
    exact sectorsOf_replicate_zero 29 3944 (by omega)
  have hph1 : (headerRecord TrackInformation.zero
      trackInput29).readSectorInformationBlocks (trackInput29.drop 24) =
      ({ headerRecord TrackInformation.zero trackInput29 with
          Sectors := sectorsOf 29 (trackInput29.drop 24) },
        (trackInput29.drop 24).drop (8 * 29), none) := by
    simp only [TrackInformation.readSectorInformationBlocks, hc, hs0, hloop,
      List.nil_append]
  have hs2rep : (trackInput29.drop 24).drop (8 * 29) = List.replicate 3712 0 := by
    rw [hdrop24, List.drop_replicate]
  have hc2 : ({ headerRecord TrackInformation.zero trackInput29 with
      Sectors := sectorsOf 29 (trackInput29.drop 24) } :
      TrackInformation).SectorsCount = 29 :=
    (headerRecord_update_sectorsCount TrackInformation.zero trackInput29
      (sectorsOf 29 (trackInput29.drop 24))).trans h21
  have hbuf := setBuffer_ok
    ({ headerRecord TrackInformation.zero trackInput29 with
        Sectors := sectorsOf 29 (trackInput29.drop 24) })
    ((trackInput29.drop 24).drop (8 * 29))
    (by rw [hc2]) (by rw [hc2, hs2rep, List.length_replicate]; omega)
  rw [hc2] at hbuf
  have hz : (232 - 8 * 29 : Nat) = 0 := by norm_num
  rw [hz, List.drop_zero] at hbuf
  have hsz : sizesSum (List.replicate 29 (decodeSector (List.replicate 8 0))) =
      3712 := by decide
  have hdl := readDataLoop_ok
    (List.replicate 29 (decodeSector (List.replicate 8 0))) 0 []
    ((trackInput29.drop 24).drop (8 * 29))
    (by rw [hsz, hs2rep, List.length_replicate])
  have hph3 : ({ headerRecord TrackInformation.zero trackInput29 with
      Sectors := sectorsOf 29 (trackInput29.drop 24) } :
      TrackInformation).readSectorData ((trackInput29.drop 24).drop (8 * 29)) =
      ({ headerRecord TrackInformation.zero trackInput29 with
          Sectors := sectorsOf 29 (trackInput29.drop 24),
          Data := sectorPayloads
            (List.replicate 29 (decodeSector (List.replicate 8 0)))
            ((trackInput29.drop 24).drop (8 * 29)) },
        ((trackInput29.drop 24).drop (8 * 29)).drop
          (sizesSum (List.replicate 29 (decodeSector (List.replicate 8 0)))),
        none) := by
    simp only [TrackInformation.readSectorData, headerRecord_data, zero_data,
      hsecs29, hdl, List.nil_append]
  simp only [TrackInformation.Read, hh, TrackInformation.readRest, hph1, hbuf,
    hph3]

/-- C3 amended: the decode fails only when the sector descriptor table
overruns *strictly* past the fixed data-start offset: whenever the header
declares `SectorsCount ≥ 30` (so `24 + SectorsCount * 8 > 0x100`, a negative
remainder) and the header and descriptor table themselves are readable,
`TrackInformation.Read` fails with the wrapped negative-discard error.  A
zero remainder (`SectorsCount = 29`) is accepted, since discarding zero
bytes succeeds. -/
theorem trackHeaderOverflow (s : List Nat)
    (hcount : 30 ≤ s[21]!)
    (hlen : 24 + 8 * s[21]! ≤ s.length) :
    (TrackInformation.Read TrackInformation.zero s).2.2 =
      some (DskError.wrap "error moving reader position to 0x0100"
        DskError.negativeCount) := by
  have h24 : 24 ≤ s.length := by omega
  have hh := readHeader_eq TrackInformation.zero s h24
  simp only [TrackInformation.Read, hh]
  simp only [TrackInformation.readRest]
  have hc : (headerRecord TrackInformation.zero s).SectorsCount = s[21]! := rfl
  have hs0 : (headerRecord TrackInformation.zero s).Sectors = [] := rfl
  have hloop := readSectorsLoop_ok (s[21]!) 0 [] (s.drop 24)
    (by simp only [List.length_drop]; omega)
  have hph1 : (headerRecord TrackInformation.zero s).readSectorInformationBlocks
      (s.drop 24) =
      ({ headerRecord TrackInformation.zero s with
          Sectors := sectorsOf (s[21]!) (s.drop 24) },
        (s.drop 24).drop (8 * (s[21]!)), none) := by
    simp only [TrackInformation.readSectorInformationBlocks, hc, hs0, hloop,
      List.nil_append]
  rw [hph1]
  have hbuf := setBuffer_overflow
    ({ headerRecord TrackInformation.zero s with
        Sectors := sectorsOf (s[21]!) (s.drop 24) })
    ((s.drop 24).drop (8 * (s[21]!))) hcount
  simp only [hbuf]

/-- Witness for the amended C3: a track image declaring 30 sectors
(`24 + 30*8 = 264 > 0x100`) with all 30 descriptors present. -/
theorem trackHeaderOverflow_witness :
    (TrackInformation.Read TrackInformation.zero
        (List.replicate 21 0 ++ 30 :: List.replicate 242 0)).2.2 =
      some (DskError.wrap "error moving reader position to 0x0100"
        DskError.negativeCount) :=
  trackHeaderOverflow (List.replicate 21 0 ++ 30 :: List.replicate 242 0)
    (by decide) (by decide)

/-- C9: the track decode is not atomic on error.  When reading sector
descriptor number `k+1` fails, `readSectorInformationBlocks` returns an
error but the receiver retains the `k` descriptors already appended to
`Sectors`; symmetrically, when reading payload number `j+1` fails,
`readSectorData` returns an error but the receiver retains the `j` payloads
already appended to `Data`.  (Both stated for a receiver starting from the
zero value of the respective field, as in `TrackInformation.Read`.) -/
theorem trackInformation_read_not_atomic :
    (∀ (t : TrackInformation) (s : List Nat) (k : Nat),
      t.Sectors = [] → k < t.SectorsCount →
      8 * k ≤ s.length → s.length < 8 * (k + 1) →
      ((t.readSectorInformationBlocks s).2.2).isSome = true ∧
      (t.readSectorInformationBlocks s).1.Sectors.length = k) ∧
    (∀ (t : TrackInformation) (s : List Nat) (j : Nat),
      t.Data = [] → j < t.Sectors.length →
      sizesSum (t.Sectors.take j) ≤ s.length →
      s.length < sizesSum (t.Sectors.take (j + 1)) →
      ((t.readSectorData s).2.2).isSome = true ∧
      (t.readSectorData s).1.Data.length = j) := by
  constructor
  · intro t s k hsec hk h1 h2
    have hlt : s.length < 8 * t.SectorsCount := by omega
    obtain ⟨⟨secs, s2, e2⟩, hloop⟩ :
        ∃ q, readSectorsLoop t.SectorsCount 0 t.Sectors s = q := ⟨_, rfl⟩
    obtain ⟨hsome, hlen⟩ := readSectorsLoop_short t.SectorsCount 0 t.Sectors s hlt
    rw [hloop] at hsome hlen
    have hred : t.readSectorInformationBlocks s =
        ({ t with Sectors := secs }, s2, e2) := by
      simp only [TrackInformation.readSectorInformationBlocks, hloop]
    rw [hred]
    refine ⟨hsome, ?_⟩
    show secs.length = k
    have hthis : secs.length = t.Sectors.length + s.length / 8 := hlen
    rw [hsec] at hthis
    simp only [List.length_nil, Nat.zero_add] at hthis
    omega
  · intro t s j hdat hj h1 h2
    obtain ⟨⟨ds, s2, e2⟩, hdl⟩ :
        ∃ q, readDataLoop t.Sectors 0 t.Data s = q := ⟨_, rfl⟩
    obtain ⟨hsome, hlen⟩ := readDataLoop_short t.Sectors j 0 t.Data s hj h1 h2
    rw [hdl] at hsome hlen
    have hred : t.readSectorData s = ({ t with Data := ds }, s2, e2) := by
      simp only [TrackInformation.readSectorData, hdl]
    rw [hred]
    refine ⟨hsome, ?_⟩
    show ds.length = j
    have hthis : ds.length = t.Data.length + j := hlen
    rw [hdat] at hthis
    simpa using hthis

/-- Witness for C9: a track declaring 2 sectors with only 12 stream bytes
(descriptor #2 fails, one descriptor retained), and a track with two
128-byte sectors but only 128 stream bytes (payload #2 fails, one payload
retained). -/
theorem trackInformation_read_not_atomic_witness :
    (((({ TrackInformation.zero with SectorsCount := 2 } :
          TrackInformation).readSectorInformationBlocks
          (List.replicate 12 0)).2.2).isSome = true ∧
      (({ TrackInformation.zero with SectorsCount := 2 } :
          TrackInformation).readSectorInformationBlocks
          (List.replicate 12 0)).1.Sectors.length = 1) ∧
    (((({ TrackInformation.zero with Sectors :=
            [{ Track := 0, Side := 0, ID := 0, Size := 0, FDC1 := 0,
               FDC2 := 0, Unused := [] },
             { Track := 0, Side := 0, ID := 0, Size := 0, FDC1 := 0,
               FDC2 := 0, Unused := [] }] } :
          TrackInformation).readSectorData
          (List.replicate 128 0)).2.2).isSome = true ∧
      (({ TrackInformation.zero with Sectors :=
            [{ Track := 0, Side := 0, ID := 0, Size := 0, FDC1 := 0,
               FDC2 := 0, Unused := [] },
             { Track := 0, Side := 0, ID := 0, Size := 0, FDC1 := 0,
               FDC2 := 0, Unused := [] }] } :
          TrackInformation).readSectorData
          (List.replicate 128 0)).1.Data.length = 1) :=
  ⟨trackInformation_read_not_atomic.1
      ({ TrackInformation.zero with SectorsCount := 2 })
      (List.replicate 12 0) 1 rfl (by decide) (by decide) (by decide),
   trackInformation_read_not_atomic.2
      ({ TrackInformation.zero with Sectors :=
          [{ Track := 0, Side := 0, ID := 0, Size := 0, FDC1 := 0,
             FDC2 := 0, Unused := [] },
           { Track := 0, Side := 0, ID := 0, Size := 0, FDC1 := 0,
             FDC2 := 0, Unused := [] }] })
      (List.replicate 128 0) 1 rfl (by decide) (by decide) (by decide)⟩

/-! ## Tape control-flow resolver

No resolver exists in the provided sources: the repository decodes the
control blocks (`LoopStart`, `LoopEnd`, `JumpTo`, `CallSequence`,
`ReturnFromSequence`, `Select`, and the data-only variants) but their
playback semantics is given only by the specification.  The resolver below
is modelled from the spec: a deterministic state machine over an immutable
directory, whose state is the current index, a call stack of saved return
positions and an active-loop stack of (start index, remaining count);
data-only blocks emit their directory index and advance by one, control
blocks redirect without emitting; resolution ends when the index falls
outside the directory, and a caller-supplied maximum step count bounds the
run. -/

/-- Modelled from the spec: the control-relevant shape of a decoded tape
block as seen by the resolver. -/
inductive TapeBlock where
  | data : TapeBlock
  | loopStart (count : Nat) : TapeBlock
  | loopEnd : TapeBlock
  | jumpTo (offset : Int) : TapeBlock
  | callSeq (offsets : List Int) : TapeBlock
  | returnFromSeq : TapeBlock
  | select (offsets : List Int) : TapeBlock
  deriving Repr, DecidableEq, Inhabited

/-- Modelled from the spec: the resolution-error taxonomy. -/
inductive ResolveError where
  | nestedLoopNotAllowed : ResolveError
  | invalidLoopCount : ResolveError
  | nestedCallNotAllowed : ResolveError
  | returnWithoutCall : ResolveError
  | unresolvedJumpTarget : ResolveError
  deriving Repr, DecidableEq

/-- Modelled from the spec: resolver state — current index, call stack of
saved return positions, active-loop stack of (start index, remaining
count). -/
structure ResolverState where
  idx : Int
  callStack : List Int
  loopStack : List (Nat × Nat)
  deriving Repr, DecidableEq

/-- Modelled from the spec: a fuelled run of the resolver state machine
producing the effective play order (the directory indices of the data
blocks visited, in visit order).  Terminal: the current index falls outside
`[0, dir.length)`.  `LoopStart(count)` rejects nesting and a zero count and
opens a loop; `LoopEnd` decrements the open loop, replaying from the index
after the loop start until the count is exhausted; `JumpTo` redirects by its
offset; `CallSequence` rejects nesting, saves the position after itself and
redirects by its first offset; `ReturnFromSequence` pops the saved position
(error when the call stack is empty); `Select` defaults to its first
candidate.  `fuel` is the caller-supplied maximum step count. -/
def resolveSteps (dir : List TapeBlock) : Nat → ResolverState →
    Except ResolveError (List Nat)
  | 0, _ => Except.ok []
  | fuel + 1, st =>
    if st.idx < 0 ∨ (dir.length : Int) ≤ st.idx then Except.ok []
    else
      match dir[st.idx.toNat]! with
      | TapeBlock.data =>
        match resolveSteps dir fuel { st with idx := st.idx + 1 } with
        | Except.error e => Except.error e
        | Except.ok rest => Except.ok (st.idx.toNat :: rest)
      | TapeBlock.loopStart c =>
        if st.loopStack ≠ [] then Except.error ResolveError.nestedLoopNotAllowed
        else if c = 0 then Except.error ResolveError.invalidLoopCount
        else resolveSteps dir fuel
          { st with
            idx := st.idx + 1
            loopStack := (st.idx.toNat, c) :: st.loopStack }
      | TapeBlock.loopEnd =>
        match st.loopStack with
        | [] => resolveSteps dir fuel { st with idx := st.idx + 1 }
        | (start, remaining) :: outer =>
          if remaining ≤ 1 then
            resolveSteps dir fuel { st with idx := st.idx + 1, loopStack := outer }
          else
            resolveSteps dir fuel
              { st with
                idx := (start : Int) + 1
                loopStack := (start, remaining - 1) :: outer }
      | TapeBlock.jumpTo off =>
        resolveSteps dir fuel { st with idx := st.idx + off }
      | TapeBlock.callSeq offsets =>
        if st.callStack ≠ [] then Except.error ResolveError.nestedCallNotAllowed
        else
          match offsets with
          | [] => resolveSteps dir fuel { st with idx := st.idx + 1 }
          | off :: _ =>
            resolveSteps dir fuel
              { st with idx := st.idx + off, callStack := [st.idx + 1] }
      | TapeBlock.returnFromSeq =>
        match st.callStack with
        | [] => Except.error ResolveError.returnWithoutCall
        | saved :: outer =>
          resolveSteps dir fuel { st with idx := saved, callStack := outer }
      | TapeBlock.select offsets =>
        match offsets with
        | [] => resolveSteps dir fuel { st with idx := st.idx + 1 }
        | off :: _ => resolveSteps dir fuel { st with idx := st.idx + off }

/-- Modelled from the spec: resolve a directory starting at index 0 with
empty call and loop stacks. -/
def resolve (dir : List TapeBlock) (fuel : Nat) :
    Except ResolveError (List Nat) :=
  resolveSteps dir fuel { idx := 0, callStack := [], loopStack := [] }

/-- The six-block directory `[A, LoopStart(3), B, C, LoopEnd, D]` of the
loop-resolution example (A, B, C, D data-only). -/
def loopExampleDir : List TapeBlock :=
  [TapeBlock.data, TapeBlock.loopStart 3, TapeBlock.data, TapeBlock.data,
   TapeBlock.loopEnd, TapeBlock.data]

/-- C8: resolving the directory `[A, LoopStart(3), B, C, LoopEnd, D]` yields
the effective play order `A, B, C, B, C, B, C, D` — the directory indices
`[0, 2, 3, 2, 3, 2, 3, 5]`: the indices strictly between LoopStart and
LoopEnd repeat exactly 3 times before play continues after LoopEnd. -/
theorem loop_resolution_example :
    resolve loopExampleDir 100 = Except.ok [0, 2, 3, 2, 3, 2, 3, 5] := rfl

end Tzxit
